import Mathlib

/-
Verification of the HTTP client facade in src/client/utils/fetchApi.ts
(repository avala-nagarjun/devops-practice).

The development shallowly embeds the facade: JavaScript objects used as
string-keyed maps become association lists with replace-or-append update
(mirroring object spread and property assignment), the axios error shape
becomes an inductive type with the three branches the code inspects
(error.response, error.request, neither), thrown ApiError values become
the error side of Except, and Promise.all over timed outcomes becomes an
explicit earliest-rejection function.
-/

namespace FetchApiSpec

/-! ## Base address resolution

Source line 2:
  const API_BASE_URL =
    process.env.NEXT_PUBLIC_API_URL || 'http://practice.local' || 'http://localhost:3001';
JavaScript `a || b` on strings yields `a` when `a` is truthy (non-empty)
and `b` otherwise; an absent environment variable is `undefined`, which is
falsy. -/

/-- JavaScript `a || b` for strings: `a` when non-empty, else `b`. -/
def jsOrStr (a b : String) : String :=
  if a ≠ "" then a else b

/-- JavaScript `env || b` where `env` models `process.env.NEXT_PUBLIC_API_URL`
(`none` when the variable is unset; `undefined` is falsy). -/
def jsOrEnv (env : Option String) (b : String) : String :=
  match env with
  | some s => jsOrStr s b
  | none => b

/-- Source line 2: the module-level constant, as a function of the
environment value. -/
def API_BASE_URL (env : Option String) : String :=
  jsOrStr (jsOrEnv env "http://practice.local") "http://localhost:3001"

/-! ## Scalar query-parameter values

`RequestOptions.params` has type `Record<string, string | number | boolean>`;
each value is coerced by `String(value)` before being appended. -/

/-- A query-parameter value: string, number, or boolean. Numbers are
modelled as integers (every parameter the repository passes is one). -/
inductive Scalar where
  | str (s : String)
  | num (n : Int)
  | bool (b : Bool)
deriving DecidableEq, Repr

/-- JavaScript `String(value)` on a scalar. -/
def Scalar.toStringJS : Scalar → String
  | .str s => s
  | .num n => toString n
  | .bool b => if b then "true" else "false"

/-! ## URL-encoding of query pairs

`url.searchParams.append(key, value)` followed by `url.toString()`
serialises each pair with application/x-www-form-urlencoded escaping:
ASCII alphanumerics and `*-._` pass through, space becomes `+`, every
other character is percent-encoded byte-wise from its UTF-8 encoding. -/

/-- Upper-case hexadecimal digit for a value below 16. -/
def hexDigit (n : Nat) : Char :=
  if n < 10 then Char.ofNat (48 + n) else Char.ofNat (55 + n)

/-- Percent-encoding of one byte value. -/
def percentByte (b : Nat) : String :=
  String.mk ['%', hexDigit (b / 16 % 16), hexDigit (b % 16)]

/-- UTF-8 encoding of one character as byte values. -/
def utf8Bytes (c : Char) : List Nat :=
  let n := c.toNat
  if n < 128 then [n]
  else if n < 2048 then [192 + n / 64, 128 + n % 64]
  else if n < 65536 then [224 + n / 4096, 128 + n / 64 % 64, 128 + n % 64]
  else [240 + n / 262144, 128 + n / 4096 % 64, 128 + n / 64 % 64, 128 + n % 64]

/-- Characters that pass through form-urlencoding unescaped. -/
def formSafe (c : Char) : Bool :=
  c.isAlphanum || c = '*' || c = '-' || c = '.' || c = '_'

/-- Form-urlencoding of one character. -/
def encodeChar (c : Char) : String :=
  if c = ' ' then "+"
  else if formSafe c then String.singleton c
  else String.join ((utf8Bytes c).map percentByte)

/-- Form-urlencoding of a string, character by character. -/
def formUrlEncode (s : String) : String :=
  String.join (s.data.map encodeChar)

/-- One serialised query pair `encode(key)=encode(String(value))`. -/
def encodePair (kv : String × Scalar) : String :=
  formUrlEncode kv.1 ++ "=" ++ formUrlEncode kv.2.toStringJS

/-- The query part of the serialised URL: empty when no pair was appended,
otherwise `?` followed by the pairs joined with `&`, in append order. -/
def renderQuery (params : Option (List (String × Scalar))) : String :=
  match params with
  | none => ""
  | some [] => ""
  | some ps => "?" ++ String.intercalate "&" (ps.map encodePair)

/-- Source lines 46-55: `buildUrl` forms `new URL('/api' + endpoint, base)`
and appends each params entry in iteration order. The model concatenates;
it is faithful for an origin-form base (no path component), which both
fallback literals and the repository's configured values are, and for
endpoints that are plain absolute path strings (see `validEndpoint`). -/
def buildUrl (base : String) (endpoint : String)
    (params : Option (List (String × Scalar))) : String :=
  base ++ "/api" ++ endpoint ++ renderQuery params

/-- Endpoints for which the `new URL` resolution is plain concatenation:
a leading slash and only alphanumerics, slashes, hyphens and underscores
(no query, fragment or dot segments). Every endpoint the repository
passes satisfies this. -/
def validEndpoint (e : String) : Bool :=
  (match e.data with
   | c :: _ => c = '/'
   | [] => false)
  && e.data.all (fun c => c.isAlphanum || c = '/' || c = '-' || c = '_')

/-! ## Headers

JavaScript objects used as header maps: association lists in insertion
order with at most one entry per key; assignment and spread replace the
value in place when the key exists and append otherwise. -/

/-- Header map: key-value pairs in insertion order. -/
abbrev Headers := List (String × String)

/-- Property assignment `obj[k] = v`: replace in place, else append. -/
def setKey (h : Headers) (k v : String) : Headers :=
  if h.any (fun p => p.1 = k) then
    h.map (fun p => if p.1 = k then (k, v) else p)
  else
    h ++ [(k, v)]

/-- The `delete obj[k]` operation. -/
def deleteKey (h : Headers) (k : String) : Headers :=
  h.filter (fun p => p.1 ≠ k)

/-- Property read `obj[k]` (at most one entry per key, so the first
match is the entry). -/
def lookupKey (h : Headers) (k : String) : Option String :=
  match h with
  | [] => none
  | p :: t => if p.1 = k then some p.2 else lookupKey t k

/-- Object spread of `custom` over an accumulator. -/
def spreadInto (h : Headers) (custom : Headers) : Headers :=
  custom.foldl (fun acc kv => setKey acc kv.1 kv.2) h

/-- First-of-two option, used to state merge results: the left value
when present, the right one otherwise. -/
def orOpt (a b : Option String) : Option String :=
  match a with
  | some v => some v
  | none => b

/-- The value the last occurrence of key `k` in `custom` carries, if
any; for a caller-supplied header object (keys distinct) this is the
caller's value for `k`. -/
def lastLookup (custom : Headers) (k : String) : Option String :=
  match custom with
  | [] => none
  | p :: t => orOpt (lastLookup t k) (if p.1 = k then some p.2 else none)

/-- Source lines 58-71: start from a literal with Content-Type
application/json, spread the caller's headers over it, then assign
Authorization to "Bearer " followed by the token when one is stored.
`token` models `localStorage.getItem('authToken')` (`none` when absent
or in a non-browser context). -/
def getDefaultHeaders (custom : Headers) (token : Option String) : Headers :=
  let headers := spreadInto [("Content-Type", "application/json")] custom
  match token with
  | some t => setKey headers "Authorization" ("Bearer " ++ t)
  | none => headers

/-! ## Error normalization

Source lines 33-43 (class ApiError) and 79-96 (handleAxiosError). -/

/-- The response payload as the error handler sees it: its optional
`message` field (after the code's string cast) and an opaque identity
for the rest of the raw payload. -/
structure ResponseBody where
  message : Option String
  raw : String
deriving DecidableEq, Repr

/-- JavaScript `data?.message || fallback`: the field when present and
truthy (non-empty), the fallback otherwise. -/
def jsOrOpt (m : Option String) (fallback : String) : String :=
  match m with
  | some s => if s ≠ "" then s else fallback
  | none => fallback

/-- Source lines 34-43: the normalized error shape. `status` is the
constructor's second argument, `data` its optional third. -/
structure ApiError where
  message : String
  status : Nat
  data : Option ResponseBody
deriving DecidableEq, Repr

/-- The three axios failure shapes the handler distinguishes:
`error.response` set (server answered with an error status),
`error.request` set but no response, or neither (dispatch failure,
carrying `error.message`, which may be empty). -/
inductive AxiosFailure where
  | response (status : Nat) (data : ResponseBody)
  | noResponse
  | dispatch (message : String)
deriving DecidableEq, Repr

/-- Source lines 79-96: normalize an axios failure into an ApiError.
The thrown error becomes the returned value. Note the template literal
on line 85 ends in a space after the status. -/
def handleAxiosError : AxiosFailure → ApiError
  | .response status data =>
      ⟨jsOrOpt data.message ("HTTP error! status: " ++ toString status ++ " "),
       status, some data⟩
  | .noResponse => ⟨"Network error - no response received", 0, none⟩
  | .dispatch msg => ⟨jsOrStr msg "Unknown error occurred", 0, none⟩

/-! ## The request operations

Each static method builds the URL, computes headers, awaits the axios
call and either returns `response.data` or catches the failure and
throws `handleAxiosError` of it (the trailing `throw error` after that
call is unreachable, since the handler always throws). The transport is
external: an operation is modelled as a function of the transport
outcome. -/

/-- Outcome of one transport call: a response with decoded data of type
`T`, or an axios failure. -/
inductive Outcome (T : Type) where
  | success (data : T)
  | failure (err : AxiosFailure)
deriving DecidableEq, Repr

/-- Source lines 74-76: `handleAxiosResponse` returns `response.data`. -/
def handleAxiosResponse {T : Type} (data : T) : T := data

/-- The shared try/catch body of every request method: return the
decoded data, or the normalized error. -/
def requestResult {T : Type} (o : Outcome T) : Except ApiError T :=
  match o with
  | .success d => .ok (handleAxiosResponse d)
  | .failure e => .error (handleAxiosError e)

/-- What one facade operation hands to the transport and returns to the
caller: the constructed URL, the outgoing header map, and the result. -/
structure Dispatched (T : Type) where
  url : String
  headers : Headers
  result : Except ApiError T

/-- Arguments common to the request methods: the resolved base address,
the endpoint, the caller's options (params and headers), and the ambient
stored token. -/
structure CallEnv where
  base : String
  endpoint : String
  params : Option (List (String × Scalar))
  custom : Headers
  token : Option String

namespace FetchApi

/-- Source lines 102-119: `FetchApi.get`. -/
def get {T : Type} (env : CallEnv) (o : Outcome T) : Dispatched T :=
  ⟨buildUrl env.base env.endpoint env.params,
   getDefaultHeaders env.custom env.token,
   requestResult o⟩

/-- Source lines 122-141: `FetchApi.post` (the body is forwarded to the
transport unchanged and does not affect URL, headers or result shape). -/
def post {T : Type} (env : CallEnv) (o : Outcome T) : Dispatched T :=
  ⟨buildUrl env.base env.endpoint env.params,
   getDefaultHeaders env.custom env.token,
   requestResult o⟩

/-- Source lines 144-163: `FetchApi.put`. -/
def put {T : Type} (env : CallEnv) (o : Outcome T) : Dispatched T :=
  ⟨buildUrl env.base env.endpoint env.params,
   getDefaultHeaders env.custom env.token,
   requestResult o⟩

/-- Source lines 166-185: `FetchApi.patch`. -/
def patch {T : Type} (env : CallEnv) (o : Outcome T) : Dispatched T :=
  ⟨buildUrl env.base env.endpoint env.params,
   getDefaultHeaders env.custom env.token,
   requestResult o⟩

/-- Source lines 188-206: `FetchApi.delete`. -/
def delete {T : Type} (env : CallEnv) (o : Outcome T) : Dispatched T :=
  ⟨buildUrl env.base env.endpoint env.params,
   getDefaultHeaders env.custom env.token,
   requestResult o⟩

/-- Source lines 209-232: `FetchApi.upload` computes the default headers
and then deletes the Content-Type entry before dispatch. -/
def upload {T : Type} (env : CallEnv) (o : Outcome T) : Dispatched T :=
  ⟨buildUrl env.base env.endpoint env.params,
   deleteKey (getDefaultHeaders env.custom env.token) "Content-Type",
   requestResult o⟩

end FetchApi

/-- The six request operations, for quantifying over them. -/
inductive Verb where
  | get | post | put | patch | delete | upload
deriving DecidableEq, Repr

/-- Dispatch by verb to the corresponding static method. -/
def runVerb {T : Type} (v : Verb) (env : CallEnv) (o : Outcome T) : Dispatched T :=
  match v with
  | .get => FetchApi.get env o
  | .post => FetchApi.post env o
  | .put => FetchApi.put env o
  | .patch => FetchApi.patch env o
  | .delete => FetchApi.delete env o
  | .upload => FetchApi.upload env o

/-! ## Batch

Source lines 235-263: each entry is dispatched through the method
switch, and the resulting promises are joined with `Promise.all`.
`Promise.all` resolves with the values in input order once all fulfill,
and rejects with the reason of the earliest rejection (earlier input
index on equal times) as soon as any promise rejects. Completion timing
is modelled by a time stamp on each entry's outcome. -/

/-- The five methods the batch switch accepts. -/
inductive Method where
  | GET | POST | PUT | PATCH | DELETE
deriving DecidableEq, Repr

/-- One batch entry: its method and call arguments, and the timed
outcome of its transport call (`time` is when it settles). -/
structure BatchEntry (T : Type) where
  method : Method
  env : CallEnv
  time : Nat
  outcome : Outcome T

/-- Source lines 246-259: the switch over the entry's method. Each case
returns the corresponding static method's result (the default branch is
unreachable: the method union has exactly these five members). -/
def dispatchMethod {T : Type} (r : BatchEntry T) : Except ApiError T :=
  match r.method with
  | .GET => (FetchApi.get r.env r.outcome).result
  | .POST => (FetchApi.post r.env r.outcome).result
  | .PUT => (FetchApi.put r.env r.outcome).result
  | .PATCH => (FetchApi.patch r.env r.outcome).result
  | .DELETE => (FetchApi.delete r.env r.outcome).result

/-- The rejection `Promise.all` settles with, if any: among the entries
whose result is an error, the one with the least settle time, keeping
the earlier entry on ties (equal-time rejections run in scheduling
order, which is input order). -/
def earliestFailure {T : Type} : List (Nat × Except ApiError T) → Option (Nat × ApiError)
  | [] => none
  | p :: rest =>
    match p.2, earliestFailure rest with
    | .error e, none => some (p.1, e)
    | .error e, some q => if p.1 ≤ q.1 then some (p.1, e) else some q
    | .ok _, b => b

/-- `Promise.all` over timed results: the list of values in input order
when every entry fulfills, otherwise the earliest rejection. -/
def promiseAll {T : Type} (l : List (Nat × Except ApiError T)) : Except ApiError (List T) :=
  match earliestFailure l with
  | some q => .error q.2
  | none => .ok (l.filterMap (fun p => p.2.toOption))

/-- Source lines 235-263: `FetchApi.batch`. -/
def FetchApi.batch {T : Type} (l : List (BatchEntry T)) : Except ApiError (List T) :=
  promiseAll (l.map (fun r => (r.time, dispatchMethod r)))

/-! ## Download

Source lines 323-343: `api.download` issues a GET with only
`responseType: 'blob'` in the config (no headers entry), so the facade
attaches no headers of its own. On success it performs the save-as side
effect and returns; on failure the catch block calls
`handleAxiosError`, which throws the normalized error, so the error
propagates to the caller (the trailing `return` is reached only on
success). -/

/-- The headers `api.download` passes to the transport: none. -/
def downloadHeaders (_token : Option String) : Headers := []

/-- Source lines 323-343: `api.download` as a function of its transport
outcome (`T` stands for the blob payload; the successful return value is
`Unit`). -/
def api.download {T : Type} (env : CallEnv) (o : Outcome T) : Dispatched Unit :=
  ⟨buildUrl env.base env.endpoint none,
   downloadHeaders env.token,
   match o with
   | .success _ => .ok ()
   | .failure e => .error (handleAxiosError e)⟩

/-! ## Lemmas about the header-map operations -/

theorem orOpt_none_right (a : Option String) : orOpt a none = a := by
  cases a <;> rfl

theorem orOpt_assoc (a b c : Option String) :
    orOpt (orOpt a b) c = orOpt a (orOpt b c) := by
  cases a <;> rfl

theorem lookupKey_append (h₁ h₂ : Headers) (k : String) :
    lookupKey (h₁ ++ h₂) k = orOpt (lookupKey h₁ k) (lookupKey h₂ k) := by
  induction h₁ with
  | nil => rfl
  | cons p t ih =>
    by_cases hp : p.1 = k <;> simp [lookupKey, hp, ih, orOpt]

theorem lookupKey_eq_none_of_not_any (h : Headers) (k : String)
    (hany : h.any (fun p => p.1 = k) = false) : lookupKey h k = none := by
  induction h with
  | nil => rfl
  | cons p t ih =>
    simp only [List.any_cons, Bool.or_eq_false_iff] at hany
    have hp : ¬ p.1 = k := by simpa using hany.1
    simp [lookupKey, hp, ih hany.2]

theorem lookupKey_map_set_self (h : Headers) (k v : String)
    (hany : h.any (fun p => p.1 = k) = true) :
    lookupKey (h.map (fun p => if p.1 = k then (k, v) else p)) k = some v := by
  induction h with
  | nil => simp at hany
  | cons p t ih =>
    by_cases hp : p.1 = k
    · simp [lookupKey, hp]
    · have ht : t.any (fun p => p.1 = k) = true := by
        simpa [List.any_cons, hp] using hany
      simp [lookupKey, hp, ih ht]

theorem lookupKey_map_set_ne (h : Headers) (k v k' : String) (hne : k' ≠ k) :
    lookupKey (h.map (fun p => if p.1 = k then (k, v) else p)) k'
      = lookupKey h k' := by
  induction h with
  | nil => rfl
  | cons p t ih =>
    by_cases hp : p.1 = k
    · have hk : ¬ k = k' := fun hh => hne hh.symm
      have hp' : ¬ p.1 = k' := by rw [hp]; exact hk
      simp [lookupKey, hp, hk, hp', ih]
    · simp only [List.map_cons, if_neg hp]
      simp [lookupKey, ih]

theorem lookupKey_setKey_self (h : Headers) (k v : String) :
    lookupKey (setKey h k v) k = some v := by
  unfold setKey
  by_cases hany : h.any (fun p => p.1 = k)
  · simp only [hany, if_pos rfl]
    exact lookupKey_map_set_self h k v hany
  · simp only [Bool.not_eq_true] at hany
    simp [hany, lookupKey_append, lookupKey_eq_none_of_not_any h k hany, lookupKey, orOpt]

theorem lookupKey_setKey_ne (h : Headers) (k v k' : String) (hne : k' ≠ k) :
    lookupKey (setKey h k v) k' = lookupKey h k' := by
  unfold setKey
  by_cases hany : h.any (fun p => p.1 = k)
  · simp only [hany, if_pos rfl]
    exact lookupKey_map_set_ne h k v k' hne
  · have hk : ¬ k = k' := fun hh => hne hh.symm
    simp [hany, lookupKey_append, lookupKey, hk, orOpt_none_right]

theorem lookupKey_spreadInto (custom : Headers) (h : Headers) (k : String) :
    lookupKey (spreadInto h custom) k
      = orOpt (lastLookup custom k) (lookupKey h k) := by
  induction custom generalizing h with
  | nil => rfl
  | cons p t ih =>
    show lookupKey (spreadInto (setKey h p.1 p.2) t) k = _
    rw [ih]
    show _ = orOpt (orOpt (lastLookup t k) _) _
    rw [orOpt_assoc]
    by_cases hp : p.1 = k
    · subst hp
      simp [lookupKey_setKey_self, orOpt]
    · have hne : k ≠ p.1 := fun hh => hp hh.symm
      simp [lookupKey_setKey_ne h p.1 p.2 k hne, hp, orOpt]

theorem lookupKey_deleteKey_self (h : Headers) (k : String) :
    lookupKey (deleteKey h k) k = none := by
  induction h with
  | nil => rfl
  | cons p t ih =>
    by_cases hp : p.1 = k <;> simp [deleteKey, List.filter, hp, lookupKey, ih] <;>
      simpa [deleteKey] using ih

theorem lookupKey_deleteKey_ne (h : Headers) (k k' : String) (hne : k' ≠ k) :
    lookupKey (deleteKey h k) k' = lookupKey h k' := by
  induction h with
  | nil => rfl
  | cons p t ih =>
    by_cases hp : p.1 = k
    · have hp' : ¬ p.1 = k' := by rw [hp]; exact fun hh => hne hh.symm
      have hd : deleteKey (p :: t) k = deleteKey t k := by
        simp [deleteKey, List.filter_cons, hp]
      rw [hd, ih]
      show _ = if p.1 = k' then some p.2 else lookupKey t k'
      rw [if_neg hp']
    · have hd : deleteKey (p :: t) k = p :: deleteKey t k := by
        simp [deleteKey, List.filter_cons, hp]
      rw [hd]
      show (if p.1 = k' then some p.2 else lookupKey (deleteKey t k) k') = _
      rw [ih]
      simp [lookupKey]

theorem lookupKey_getDefaultHeaders_ne_auth (custom : Headers)
    (token : Option String) (k : String) (hk : k ≠ "Authorization") :
    lookupKey (getDefaultHeaders custom token) k
      = orOpt (lastLookup custom k)
          (if k = "Content-Type" then some "application/json" else none) := by
  have base :
      lookupKey (spreadInto [("Content-Type", "application/json")] custom) k
        = orOpt (lastLookup custom k)
            (if k = "Content-Type" then some "application/json" else none) := by
    rw [lookupKey_spreadInto]
    by_cases hc : k = "Content-Type"
    · simp [lookupKey, hc]
    · have hc' : ¬ ("Content-Type" : String) = k := fun hh => hc hh.symm
      simp [lookupKey, hc, hc']
  cases token with
  | none => exact base
  | some t =>
    show lookupKey (setKey _ "Authorization" _) k = _
    rw [lookupKey_setKey_ne _ _ _ _ hk]
    exact base

/-! ## Lemmas about the Promise.all model -/

theorem earliestFailure_cons_ok {T : Type} (p : Nat × Except ApiError T)
    (rest : List (Nat × Except ApiError T)) (a : T) (hp : p.2 = Except.ok a) :
    earliestFailure (p :: rest) = earliestFailure rest := by
  obtain ⟨pt, pr⟩ := p
  cases hp
  cases hb : earliestFailure rest <;> simp [earliestFailure, hb]

theorem earliestFailure_cons_error_none {T : Type} (p : Nat × Except ApiError T)
    (rest : List (Nat × Except ApiError T)) (e : ApiError) (hp : p.2 = Except.error e)
    (hb : earliestFailure rest = none) :
    earliestFailure (p :: rest) = some (p.1, e) := by
  obtain ⟨pt, pr⟩ := p
  cases hp
  simp [earliestFailure, hb]

theorem earliestFailure_cons_error_some {T : Type} (p : Nat × Except ApiError T)
    (rest : List (Nat × Except ApiError T)) (e : ApiError) (q : Nat × ApiError)
    (hp : p.2 = Except.error e) (hb : earliestFailure rest = some q) :
    earliestFailure (p :: rest)
      = if p.1 ≤ q.1 then some (p.1, e) else some q := by
  obtain ⟨pt, pr⟩ := p
  cases hp
  simp [earliestFailure, hb]

theorem earliestFailure_eq_none_iff {T : Type} (m : List (Nat × Except ApiError T)) :
    earliestFailure m = none ↔ ∀ p ∈ m, ∀ e, p.2 ≠ Except.error e := by
  induction m with
  | nil => simp [earliestFailure]
  | cons p rest ih =>
    cases hp : p.2 with
    | ok a =>
      rw [earliestFailure_cons_ok p rest a hp, ih]
      constructor
      · intro h q hq e
        rcases List.mem_cons.mp hq with rfl | hq'
        · rw [hp]; intro hc; cases hc
        · exact h q hq' e
      · intro h q hq e
        exact h q (List.mem_cons_of_mem _ hq) e
    | error e0 =>
      constructor
      · intro h
        exfalso
        cases hb : earliestFailure rest with
        | none =>
          rw [earliestFailure_cons_error_none p rest e0 hp hb] at h
          cases h
        | some q =>
          rw [earliestFailure_cons_error_some p rest e0 q hp hb] at h
          by_cases hle : p.1 ≤ q.1
          · rw [if_pos hle] at h; cases h
          · rw [if_neg hle] at h; cases h
      · intro h
        exact absurd hp (h p (List.mem_cons_self p rest) e0)

theorem earliestFailure_some_spec {T : Type} (m : List (Nat × Except ApiError T))
    (t : Nat) (e : ApiError) (h : earliestFailure m = some (t, e)) :
    (t, Except.error e) ∈ m
      ∧ ∀ p ∈ m, (∃ e', p.2 = Except.error e') → t ≤ p.1 := by
  induction m generalizing t e with
  | nil => cases h
  | cons p rest ih =>
    cases hp : p.2 with
    | ok a =>
      rw [earliestFailure_cons_ok p rest a hp] at h
      obtain ⟨hmem, hbound⟩ := ih t e h
      refine ⟨List.mem_cons_of_mem _ hmem, ?_⟩
      intro q hq hfail
      rcases List.mem_cons.mp hq with rfl | hq'
      · obtain ⟨e', he'⟩ := hfail
        rw [hp] at he'
        cases he'
      · exact hbound q hq' hfail
    | error e0 =>
      have hpeq : p = (p.1, Except.error e0) := by
        obtain ⟨pt, pr⟩ := p
        simpa using hp
      cases hb : earliestFailure rest with
      | none =>
        rw [earliestFailure_cons_error_none p rest e0 hp hb] at h
        have ht : p.1 = t ∧ e0 = e := by simpa using h
        obtain ⟨ht1, ht2⟩ := ht
        have hnone := (earliestFailure_eq_none_iff rest).mp hb
        constructor
        · rw [← ht1, ← ht2, ← hpeq]
          exact List.mem_cons_self p rest
        · intro q hq hfail
          rcases List.mem_cons.mp hq with rfl | hq'
          · rw [← ht1]
          · obtain ⟨e', he'⟩ := hfail
            exact absurd he' (hnone q hq' e')
      | some qb =>
        obtain ⟨qt, qe⟩ := qb
        rw [earliestFailure_cons_error_some p rest e0 (qt, qe) hp hb] at h
        obtain ⟨hmem, hbound⟩ := ih qt qe hb
        by_cases hle : p.1 ≤ qt
        · rw [if_pos hle] at h
          have ht : p.1 = t ∧ e0 = e := by simpa using h
          obtain ⟨ht1, ht2⟩ := ht
          constructor
          · rw [← ht1, ← ht2, ← hpeq]
            exact List.mem_cons_self p rest
          · intro q hq hfail
            rcases List.mem_cons.mp hq with rfl | hq'
            · rw [← ht1]
            · exact le_trans (ht1 ▸ hle) (hbound q hq' hfail)
        · rw [if_neg hle] at h
          have ht : qt = t ∧ qe = e := by simpa using h
          obtain ⟨ht1, ht2⟩ := ht
          constructor
          · exact List.mem_cons_of_mem _ (ht1 ▸ ht2 ▸ hmem)
          · intro q hq hfail
            rcases List.mem_cons.mp hq with rfl | hq'
            · have : qt ≤ q.1 := le_of_lt (lt_of_not_le hle)
              exact ht1 ▸ this
            · exact ht1 ▸ hbound q hq' hfail

theorem all_ok_map_eq {T : Type} (m : List (Nat × Except ApiError T))
    (hall : ∀ p ∈ m, ∀ e, p.2 ≠ Except.error e) :
    m.map (fun p => p.2)
      = (m.filterMap (fun p => p.2.toOption)).map Except.ok := by
  induction m with
  | nil => rfl
  | cons p rest ih =>
    cases hpv : p.2 with
    | error e => exact absurd hpv (hall p (List.mem_cons_self p rest) e)
    | ok a =>
      have h1 : List.filterMap (fun p => p.2.toOption) (p :: rest)
          = a :: List.filterMap (fun p => p.2.toOption) rest := by
        simp [List.filterMap_cons, hpv, Except.toOption]
      rw [List.map_cons, hpv,
        ih (fun q hq e => hall q (List.mem_cons_of_mem _ hq) e),
        h1, List.map_cons]

theorem map_ok_all_ok {T : Type} (m : List (Nat × Except ApiError T)) (rs : List T)
    (h : m.map (fun p => p.2) = rs.map Except.ok) :
    (∀ p ∈ m, ∀ e, p.2 ≠ Except.error e)
      ∧ m.filterMap (fun p => p.2.toOption) = rs := by
  induction m generalizing rs with
  | nil =>
    cases rs with
    | nil => exact ⟨fun p hp => absurd hp (List.not_mem_nil p), rfl⟩
    | cons r rt => cases h
  | cons p rest ih =>
    cases rs with
    | nil => cases h
    | cons r rt =>
      simp only [List.map_cons, List.cons.injEq] at h
      obtain ⟨h1, h2⟩ := h
      obtain ⟨ihall, ihfm⟩ := ih rt h2
      constructor
      · intro q hq e
        rcases List.mem_cons.mp hq with rfl | hq'
        · rw [h1]; intro hc; cases hc
        · exact ihall q hq' e
      · have hfc : List.filterMap (fun p => p.2.toOption) (p :: rest)
            = r :: List.filterMap (fun p => p.2.toOption) rest := by
          simp [List.filterMap_cons, h1, Except.toOption]
        rw [hfc, ihfm]

theorem promiseAll_ok_iff {T : Type} (m : List (Nat × Except ApiError T)) (rs : List T) :
    promiseAll m = Except.ok rs ↔ m.map (fun p => p.2) = rs.map Except.ok := by
  constructor
  · intro h
    unfold promiseAll at h
    cases hb : earliestFailure m with
    | some q => rw [hb] at h; cases h
    | none =>
      rw [hb] at h
      have hrs : m.filterMap (fun p => p.2.toOption) = rs := by
        injection h
      rw [← hrs]
      exact all_ok_map_eq m ((earliestFailure_eq_none_iff m).mp hb)
  · intro h
    obtain ⟨hall, hfm⟩ := map_ok_all_ok m rs h
    unfold promiseAll
    rw [(earliestFailure_eq_none_iff m).mpr hall, hfm]

/-! ## Bridge lemmas about the operations -/

theorem runVerb_result {T : Type} (v : Verb) (env : CallEnv) (o : Outcome T) :
    (runVerb v env o).result = requestResult o := by
  cases v <;> rfl

theorem dispatchMethod_eq_requestResult {T : Type} (r : BatchEntry T) :
    dispatchMethod r = requestResult r.outcome := by
  cases hm : r.method <;> simp [dispatchMethod, hm, FetchApi.get, FetchApi.post,
    FetchApi.put, FetchApi.patch, FetchApi.delete]

theorem requestResult_error_eq {T : Type} (o : Outcome T) (err : ApiError)
    (h : requestResult o = Except.error err) :
    ∃ ax, o = Outcome.failure ax ∧ err = handleAxiosError ax := by
  cases o with
  | success d => cases h
  | failure ax => exact ⟨ax, rfl, (Except.error.inj h).symm⟩

theorem download_result_failure {T : Type} (env : CallEnv) (ax : AxiosFailure) :
    (api.download env (Outcome.failure ax : Outcome T)).result
      = Except.error (handleAxiosError ax) := rfl

/-! ## The claims -/

/-- C1, counterexample: on a 404 response whose body has no `message`
field, the normalized message is the template-literal fallback, which
carries a trailing space after the status (source line 85), so it is not
exactly the string the claim states. -/
theorem fallback_message_trailing_space_cex :
    (FetchApi.get (⟨"http://practice.local", "/missing", none, [], none⟩ : CallEnv)
        (Outcome.failure (AxiosFailure.response 404 ⟨none, "rawBody"⟩) : Outcome String)).result
      = Except.error ⟨"HTTP error! status: 404 ", 404, some ⟨none, "rawBody"⟩⟩
    ∧ (FetchApi.get (⟨"http://practice.local", "/missing", none, [], none⟩ : CallEnv)
        (Outcome.failure (AxiosFailure.response 404 ⟨none, "rawBody"⟩) : Outcome String)).result
      ≠ Except.error ⟨"HTTP error! status: 404", 404, some ⟨none, "rawBody"⟩⟩ := by
  have h1 : (FetchApi.get (⟨"http://practice.local", "/missing", none, [], none⟩ : CallEnv)
      (Outcome.failure (AxiosFailure.response 404 ⟨none, "rawBody"⟩) : Outcome String)).result
      = Except.error ⟨"HTTP error! status: 404 ", 404, some ⟨none, "rawBody"⟩⟩ := rfl
  refine ⟨h1, fun h => ?_⟩
  rw [h1] at h
  simp only [Except.error.injEq] at h
  exact absurd h (by decide)

/-- C1, amended: for every request operation, a response with a
non-success status yields an error whose statusCode is the HTTP status,
whose body is the raw response payload, and whose message is the
response body's `message` field when that field is present and
non-empty, and otherwise is the fallback string, which ends in a space
after the status. -/
theorem server_error_normalized {T : Type} (v : Verb) (env : CallEnv)
    (status : Nat) (data : ResponseBody) :
    (runVerb v env (Outcome.failure (AxiosFailure.response status data) : Outcome T)).result
      = Except.error
          ⟨(match data.message with
            | some m =>
                if m ≠ "" then m
                else "HTTP error! status: " ++ toString status ++ " "
            | none => "HTTP error! status: " ++ toString status ++ " "),
           status, some data⟩ := by
  obtain ⟨msg, raw⟩ := data
  cases v <;> cases msg <;> rfl

/-- C2: every failing operation (each verb, batch, download) surfaces
its error as the image of the single normalization function
handleAxiosError; the caller never sees the transport failure itself. -/
theorem every_failure_is_normalized {T : Type} :
    (∀ (v : Verb) (env : CallEnv) (o : Outcome T) (err : ApiError),
        (runVerb v env o).result = Except.error err →
        ∃ ax, err = handleAxiosError ax)
    ∧ (∀ (l : List (BatchEntry T)) (err : ApiError),
        FetchApi.batch l = Except.error err → ∃ ax, err = handleAxiosError ax)
    ∧ (∀ (env : CallEnv) (o : Outcome T) (err : ApiError),
        (api.download env o).result = Except.error err →
        ∃ ax, err = handleAxiosError ax) := by
  refine ⟨?_, ?_, ?_⟩
  · intro v env o err h
    rw [runVerb_result] at h
    obtain ⟨ax, _, he⟩ := requestResult_error_eq o err h
    exact ⟨ax, he⟩
  · intro l err h
    unfold FetchApi.batch promiseAll at h
    cases hb : earliestFailure (l.map fun r => (r.time, dispatchMethod r)) with
    | none => rw [hb] at h; cases h
    | some q =>
      rw [hb] at h
      obtain ⟨qt, qe⟩ := q
      have herr : qe = err := by
        simpa using h
      obtain ⟨hmem, -⟩ := earliestFailure_some_spec _ qt qe hb
      rw [List.mem_map] at hmem
      obtain ⟨r, _, hreq⟩ := hmem
      have hr2 : dispatchMethod r = Except.error qe := congrArg Prod.snd hreq
      rw [dispatchMethod_eq_requestResult] at hr2
      obtain ⟨ax, _, he⟩ := requestResult_error_eq _ _ hr2
      exact ⟨ax, herr ▸ he⟩
  · intro env o err h
    cases o with
    | success d => cases h
    | failure ax =>
      rw [download_result_failure] at h
      exact ⟨ax, (Except.error.inj h).symm⟩

/-- C2, witness: the network-failure error of a concrete GET is in the
image of the normalization function. -/
theorem every_failure_is_normalized_witness :
    ∃ ax, (⟨"Network error - no response received", 0, none⟩ : ApiError)
      = handleAxiosError ax :=
  (every_failure_is_normalized (T := String)).1 Verb.get
    ⟨"http://practice.local", "/status", none, [], none⟩
    (Outcome.failure AxiosFailure.noResponse)
    ⟨"Network error - no response received", 0, none⟩ rfl

/-- C4, counterexample: a failing download does not return normally; its
result is the normalized error, not a plain return. -/
theorem download_swallow_cex :
    (api.download (⟨"http://practice.local", "/export", none, [], none⟩ : CallEnv)
        (Outcome.failure AxiosFailure.noResponse : Outcome String)).result
      ≠ Except.ok ()
    ∧ (api.download (⟨"http://practice.local", "/export", none, [], none⟩ : CallEnv)
        (Outcome.failure AxiosFailure.noResponse : Outcome String)).result
      = Except.error ⟨"Network error - no response received", 0, none⟩ :=
  ⟨fun h => Except.noConfusion h, rfl⟩

/-- C4, amended: when a download fails, the failure is routed through
the same error-normalization path as the other operations and the
normalized error is re-raised to the caller; only a successful download
returns normally. -/
theorem download_reraises_normalized {T : Type} (env : CallEnv) (ax : AxiosFailure) :
    (api.download env (Outcome.failure ax : Outcome T)).result
      = Except.error (handleAxiosError ax)
    ∧ ∀ d : T, (api.download env (Outcome.success d)).result = Except.ok () :=
  ⟨rfl, fun _ => rfl⟩

/-- C6: for every verb operation, a sent-but-unanswered request fails
with statusCode 0 and the fixed network-error message, and a request
that could not be dispatched fails with statusCode 0 and the underlying
message, or the unknown-error fallback when that message is empty. -/
theorem transport_failures_normalized {T : Type} (v : Verb) (env : CallEnv) :
    (runVerb v env (Outcome.failure AxiosFailure.noResponse : Outcome T)).result
      = Except.error ⟨"Network error - no response received", 0, none⟩
    ∧ ∀ msg : String,
        (runVerb v env (Outcome.failure (AxiosFailure.dispatch msg) : Outcome T)).result
          = Except.error
              ⟨(if msg ≠ "" then msg else "Unknown error occurred"), 0, none⟩ := by
  refine ⟨?_, fun msg => ?_⟩ <;> cases v <;> rfl

/-- C3, counterexample: with a token stored, a caller-supplied
Authorization header does not take precedence; the assignment on source
line 67 runs after the spread and overwrites it with the bearer value. -/
theorem caller_auth_header_overridden_cex :
    lookupKey (getDefaultHeaders [("Authorization", "Basic abc")] (some "tok"))
        "Authorization" = some "Bearer tok"
    ∧ lookupKey (getDefaultHeaders [("Authorization", "Basic abc")] (some "tok"))
        "Authorization" ≠ some "Basic abc" := by
  constructor
  · rfl
  · intro h
    exact absurd h (by decide)

/-- C3, amended: the outgoing headers are the defaults merged with the
caller's headers, caller values taking precedence for every key except
Authorization: when a token is present the Authorization header is the
bearer value regardless of what the caller supplied, and when no token
is present the Authorization header is exactly the caller's entry, if
any. -/
theorem header_merge_semantics (custom : Headers) (token : Option String) (k : String) :
    (k ≠ "Authorization" →
        lookupKey (getDefaultHeaders custom token) k
          = orOpt (lastLookup custom k)
              (if k = "Content-Type" then some "application/json" else none))
    ∧ (∀ t, token = some t →
        lookupKey (getDefaultHeaders custom token) "Authorization"
          = some ("Bearer " ++ t))
    ∧ (token = none →
        lookupKey (getDefaultHeaders custom token) "Authorization"
          = lastLookup custom "Authorization") := by
  refine ⟨fun hk => lookupKey_getDefaultHeaders_ne_auth custom token k hk,
    fun t ht => ?_, fun ht => ?_⟩
  · subst ht
    exact lookupKey_setKey_self _ _ _
  · subst ht
    show lookupKey (spreadInto [("Content-Type", "application/json")] custom)
        "Authorization" = _
    rw [lookupKey_spreadInto]
    have hbase : lookupKey [("Content-Type", "application/json")] "Authorization"
        = none := by decide
    rw [hbase, orOpt_none_right]

/-- C3, witness: with a token present, a caller-supplied Content-Type
still takes precedence over the default one, and the Authorization
header is the bearer value. -/
theorem header_merge_semantics_witness :
    lookupKey (getDefaultHeaders [("Content-Type", "text/plain")] (some "tok"))
        "Content-Type"
      = orOpt (lastLookup [("Content-Type", "text/plain")] "Content-Type")
          (if "Content-Type" = "Content-Type" then some "application/json" else none)
    ∧ lookupKey (getDefaultHeaders [("Content-Type", "text/plain")] (some "tok"))
        "Authorization" = some ("Bearer " ++ "tok") :=
  ⟨(header_merge_semantics [("Content-Type", "text/plain")] (some "tok")
      "Content-Type").1 (by decide),
   (header_merge_semantics [("Content-Type", "text/plain")] (some "tok")
      "Content-Type").2.1 "tok" rfl⟩

/-- C5: batch returns the ok results exactly when every per-request
result is ok, result i corresponding to request i in input order; and
when it fails it fails with the error of a failing request whose settle
time is least among all failing requests (the first error encountered),
never with a partial array. -/
theorem batch_input_order_and_first_error {T : Type} (l : List (BatchEntry T)) :
    (∀ rs : List T,
        FetchApi.batch l = Except.ok rs ↔
          l.map (fun r => dispatchMethod r) = rs.map Except.ok)
    ∧ (∀ err : ApiError,
        FetchApi.batch l = Except.error err →
          ∃ r, r ∈ l ∧ dispatchMethod r = Except.error err ∧
            ∀ r', r' ∈ l → (∃ e', dispatchMethod r' = Except.error e') →
              r.time ≤ r'.time) := by
  constructor
  · intro rs
    unfold FetchApi.batch
    rw [promiseAll_ok_iff, List.map_map]
    rfl
  · intro err h
    unfold FetchApi.batch promiseAll at h
    cases hb : earliestFailure (l.map fun r => (r.time, dispatchMethod r)) with
    | none => rw [hb] at h; cases h
    | some q =>
      rw [hb] at h
      obtain ⟨qt, qe⟩ := q
      have herr : qe = err := by simpa using h
      subst herr
      obtain ⟨hmem, hbound⟩ := earliestFailure_some_spec _ qt qe hb
      rw [List.mem_map] at hmem
      obtain ⟨r, hrl, hreq⟩ := hmem
      have hr2 : dispatchMethod r = Except.error qe := congrArg Prod.snd hreq
      have hr1 : r.time = qt := congrArg Prod.fst hreq
      refine ⟨r, hrl, hr2, ?_⟩
      intro r' hr' hfail
      obtain ⟨e', he'⟩ := hfail
      have : qt ≤ r'.time := by
        refine hbound (r'.time, dispatchMethod r') ?_ ⟨e', he'⟩
        exact List.mem_map.mpr ⟨r', hr', rfl⟩
      exact hr1 ▸ this

/-- C5, witness: the spec's example. A succeeds at 50ms, B fails at
10ms, C succeeds at 5ms; batch rejects with B's normalized error, and
the theorem locates B as an earliest failing request. -/
theorem batch_input_order_and_first_error_witness :
    ∃ r, r ∈ ([⟨Method.GET, ⟨"http://practice.local", "/a", none, [], none⟩, 50,
                  Outcome.success "a"⟩,
                ⟨Method.POST, ⟨"http://practice.local", "/b", none, [], none⟩, 10,
                  Outcome.failure AxiosFailure.noResponse⟩,
                ⟨Method.GET, ⟨"http://practice.local", "/c", none, [], none⟩, 5,
                  Outcome.success "c"⟩] : List (BatchEntry String))
      ∧ dispatchMethod r
          = Except.error ⟨"Network error - no response received", 0, none⟩
      ∧ ∀ r', r' ∈ ([⟨Method.GET, ⟨"http://practice.local", "/a", none, [], none⟩, 50,
                  Outcome.success "a"⟩,
                ⟨Method.POST, ⟨"http://practice.local", "/b", none, [], none⟩, 10,
                  Outcome.failure AxiosFailure.noResponse⟩,
                ⟨Method.GET, ⟨"http://practice.local", "/c", none, [], none⟩, 5,
                  Outcome.success "c"⟩] : List (BatchEntry String)) →
            (∃ e', dispatchMethod r' = Except.error e') → r.time ≤ r'.time :=
  (batch_input_order_and_first_error _).2
    ⟨"Network error - no response received", 0, none⟩ rfl

/-- C7: for a valid endpoint, the constructed address is the base
address followed by the /api prefix and then the endpoint (hence starts
with base ++ /api/), and carries exactly one url-encoded query pair per
params entry, joined in iteration order; with no params there is no
query part. -/
theorem buildUrl_prefix_and_query (base e : String) (ps : List (String × Scalar))
    (h : validEndpoint e = true) :
    (∃ rest : String, buildUrl base e (some ps) = (base ++ "/api/") ++ rest)
    ∧ (ps ≠ [] →
        buildUrl base e (some ps)
          = ((base ++ "/api" ++ e) ++ "?")
              ++ String.intercalate "&" (ps.map encodePair))
    ∧ buildUrl base e none = base ++ "/api" ++ e := by
  unfold validEndpoint at h
  rw [Bool.and_eq_true] at h
  obtain ⟨h1, -⟩ := h
  rcases hdata : e.data with - | ⟨c, dtl⟩
  · rw [hdata] at h1
    cases h1
  · rw [hdata] at h1
    have hc : c = '/' := by simpa using h1
    subst hc
    refine ⟨⟨String.mk dtl ++ renderQuery (some ps), ?_⟩, fun hps => ?_, ?_⟩
    · apply String.ext
      simp only [buildUrl, String.data_append, hdata]
      simp only [show ("/api".data : List Char) = ['/', 'a', 'p', 'i'] from rfl,
        show ("/api/".data : List Char) = ['/', 'a', 'p', 'i', '/'] from rfl,
        List.cons_append, List.append_assoc, List.nil_append]
    · cases ps with
      | nil => exact absurd rfl hps
      | cons a l =>
        apply String.ext
        simp only [buildUrl, renderQuery, String.data_append, List.append_assoc]
    · apply String.ext
      simp only [buildUrl, renderQuery, String.data_append, List.append_assoc,
        show ("".data : List Char) = [] from rfl, List.append_nil]

/-- C7, witness: a concrete valid endpoint with one params entry. -/
theorem buildUrl_prefix_and_query_witness :
    validEndpoint "/users" = true
    ∧ ∃ rest : String,
        buildUrl "http://practice.local" "/users" (some [("page", Scalar.num 2)])
          = ("http://practice.local" ++ "/api/") ++ rest :=
  ⟨by decide,
   (buildUrl_prefix_and_query "http://practice.local" "/users"
      [("page", Scalar.num 2)] (by decide)).1⟩

/-- C8: the upload operation's outgoing headers carry no Content-Type
entry at all (so in particular none equal to application/json), even
though the computed default headers do contain Content-Type
application/json whenever the caller did not override it. -/
theorem upload_strips_content_type {T : Type} (env : CallEnv) (o : Outcome T) :
    lookupKey (FetchApi.upload env o).headers "Content-Type" = none
    ∧ (lastLookup env.custom "Content-Type" = none →
        lookupKey (getDefaultHeaders env.custom env.token) "Content-Type"
          = some "application/json") := by
  constructor
  · exact lookupKey_deleteKey_self _ _
  · intro hnone
    rw [lookupKey_getDefaultHeaders_ne_auth env.custom env.token "Content-Type"
      (by decide), hnone]
    rfl

/-- C8, witness: a concrete upload with a token and an unrelated custom
header. -/
theorem upload_strips_content_type_witness :
    lookupKey (FetchApi.upload
        (⟨"http://practice.local", "/files", none, [("X-Trace", "1")], some "tok"⟩ : CallEnv)
        (Outcome.success "r" : Outcome String)).headers "Content-Type" = none
    ∧ lookupKey (getDefaultHeaders [("X-Trace", "1")] (some "tok")) "Content-Type"
        = some "application/json" :=
  ⟨(upload_strips_content_type
      (⟨"http://practice.local", "/files", none, [("X-Trace", "1")], some "tok"⟩ : CallEnv)
      (Outcome.success "r" : Outcome String)).1,
   (upload_strips_content_type
      (⟨"http://practice.local", "/files", none, [("X-Trace", "1")], some "tok"⟩ : CallEnv)
      (Outcome.success "r" : Outcome String)).2 (by decide)⟩

/-- C9: download attaches no default headers: even with a token in
storage its request carries no Authorization and no Content-Type header,
while every verb operation's request carries the bearer Authorization
header under the same token. -/
theorem download_sends_no_default_headers {T : Type} (env : CallEnv)
    (o : Outcome T) (t : String) (ht : env.token = some t) :
    lookupKey (api.download env o).headers "Authorization" = none
    ∧ lookupKey (api.download env o).headers "Content-Type" = none
    ∧ ∀ v : Verb,
        lookupKey (runVerb v env o).headers "Authorization"
          = some ("Bearer " ++ t) := by
  refine ⟨rfl, rfl, fun v => ?_⟩
  have hbase : lookupKey (getDefaultHeaders env.custom env.token) "Authorization"
      = some ("Bearer " ++ t) := by
    rw [ht]
    exact lookupKey_setKey_self _ _ _
  cases v with
  | upload =>
    show lookupKey (deleteKey _ "Content-Type") "Authorization" = _
    rw [lookupKey_deleteKey_ne _ _ _ (by decide)]
    exact hbase
  | get => exact hbase
  | post => exact hbase
  | put => exact hbase
  | patch => exact hbase
  | delete => exact hbase

/-- C9, witness: a concrete download with a stored token. -/
theorem download_sends_no_default_headers_witness :
    lookupKey (api.download
        (⟨"http://practice.local", "/report", none, [], some "tok"⟩ : CallEnv)
        (Outcome.success "blob" : Outcome String)).headers "Authorization" = none
    ∧ lookupKey (api.download
        (⟨"http://practice.local", "/report", none, [], some "tok"⟩ : CallEnv)
        (Outcome.success "blob" : Outcome String)).headers "Content-Type" = none
    ∧ ∀ v : Verb,
        lookupKey (runVerb v
            (⟨"http://practice.local", "/report", none, [], some "tok"⟩ : CallEnv)
            (Outcome.success "blob" : Outcome String)).headers "Authorization"
          = some ("Bearer " ++ "tok") :=
  download_sends_no_default_headers
    (⟨"http://practice.local", "/report", none, [], some "tok"⟩ : CallEnv)
    (Outcome.success "blob" : Outcome String) "tok" rfl

/-- C10: when the environment value is unset or empty the resolved base
address is exactly http://practice.local, and for every environment
value the fallback chain is equivalent to the chain without the
http://localhost:3001 literal, which is therefore never selected. -/
theorem base_url_practice_local (env : Option String) :
    (env = none ∨ env = some "" → API_BASE_URL env = "http://practice.local")
    ∧ API_BASE_URL env = jsOrEnv env "http://practice.local" := by
  constructor
  · rintro (rfl | rfl) <;> decide
  · cases env with
    | none => decide
    | some s =>
      by_cases hs : s = ""
      · subst hs; decide
      · simp [API_BASE_URL, jsOrEnv, jsOrStr, hs]

/-- C10, witness: the unset environment case. -/
theorem base_url_practice_local_witness :
    API_BASE_URL none = "http://practice.local" :=
  (base_url_practice_local none).1 (Or.inl rfl)

end FetchApiSpec
